import Mathlib

/-! Verification development for the cooperative task runtime of this
repository: the scheduler and wake handles (`runtime/src/runtime.rs`), the
hand-expanded coroutine state machines (`coroutines/src/main.rs`,
`pin/src/main.rs`), the thread-backed timer future (`async_timer/src/lib.rs`)
and the epoll-backed readiness multiplexer (`timer_event_queue/src/poll.rs`).

The Rust code is embedded shallowly: pure control flow becomes Lean
functions, mutation becomes explicit state passing, `panic!`/`unwrap()`
failures become `none`, fallible OS calls are parameterised by an oracle
describing the OS result, and machine integers become `Nat`/`Int` (no value
in this code approaches a word-size boundary). Futures driven by the
scheduler and nested futures awaited by the coroutines are abstracted by a
type parameter together with a step function, exactly as the Rust code is
generic over `dyn Future`. -/

namespace AsyncRust

/-- Result of one resumption step: `std::task::Poll<()>` with constructors
`Ready(())` and `Pending`. -/
inductive Poll where
  | Ready : Poll
  | Pending : Poll
deriving DecidableEq

/-- Model of `HashMap<usize, V>` as an association list with (invariantly)
distinct keys. `lookupAL` is `map.get(&k)`. -/
def lookupAL {V : Type} : List (Nat × V) → Nat → Option V
  | [], _ => none
  | (k, v) :: rest, k2 => if k = k2 then some v else lookupAL rest k2

/-- `HashMap::insert(k, v)`: replaces the mapping of `k` when present,
otherwise adds one. -/
def insertAL {V : Type} : List (Nat × V) → Nat → V → List (Nat × V)
  | [], k, v => [(k, v)]
  | (k2, v2) :: rest, k, v =>
    if k2 = k then (k, v) :: rest else (k2, v2) :: insertAL rest k v

/-- `HashMap::remove(&k)`: returns the removed value (if any) together with
the remaining table. -/
def removeAL {V : Type} : List (Nat × V) → Nat → Option V × List (Nat × V)
  | [], _ => (none, [])
  | (k2, v2) :: rest, k =>
    if k2 = k then (some v2, rest)
    else ((removeAL rest k).1, (k2, v2) :: (removeAL rest k).2)

theorem lookupAL_insertAL_self {V : Type} (l : List (Nat × V)) (k : Nat) (v : V) :
    lookupAL (insertAL l k v) k = some v := by
  induction l with
  | nil => simp [insertAL, lookupAL]
  | cons hd tl ih =>
    obtain ⟨k2, v2⟩ := hd
    by_cases h : k2 = k
    · simp [insertAL, h, lookupAL]
    · simp [insertAL, h, lookupAL, ih]

theorem lookupAL_insertAL_ne {V : Type} (l : List (Nat × V)) (k k2 : Nat) (v : V)
    (h : k2 ≠ k) : lookupAL (insertAL l k v) k2 = lookupAL l k2 := by
  have hk : k ≠ k2 := Ne.symm h
  induction l with
  | nil => simp [insertAL, lookupAL, hk]
  | cons hd tl ih =>
    obtain ⟨k3, v3⟩ := hd
    by_cases h3 : k3 = k
    · subst h3
      simp [insertAL, lookupAL, hk]
    · simp [insertAL, lookupAL, h3, ih]

theorem removeAL_fst {V : Type} (l : List (Nat × V)) (k : Nat) :
    (removeAL l k).1 = lookupAL l k := by
  induction l with
  | nil => simp [removeAL, lookupAL]
  | cons hd tl ih =>
    obtain ⟨k2, v2⟩ := hd
    by_cases h : k2 = k <;> simp [removeAL, lookupAL, h, ih]

theorem lookupAL_eq_none_of_not_mem {V : Type} (l : List (Nat × V)) (k : Nat)
    (h : k ∉ l.map Prod.fst) : lookupAL l k = none := by
  induction l with
  | nil => simp [lookupAL]
  | cons hd tl ih =>
    obtain ⟨k2, v2⟩ := hd
    simp only [List.map_cons, List.mem_cons] at h
    push_neg at h
    simp [lookupAL, Ne.symm h.1, ih h.2]

theorem lookupAL_removeAL_self {V : Type} (l : List (Nat × V)) (k : Nat)
    (hnd : (l.map Prod.fst).Nodup) : lookupAL (removeAL l k).2 k = none := by
  induction l with
  | nil => simp [removeAL, lookupAL]
  | cons hd tl ih =>
    obtain ⟨k2, v2⟩ := hd
    simp only [List.map_cons, List.nodup_cons] at hnd
    by_cases h : k2 = k
    · subst h
      simp [removeAL, lookupAL_eq_none_of_not_mem tl k2 hnd.1]
    · simp [removeAL, lookupAL, h, ih hnd.2]

theorem lookupAL_removeAL_ne {V : Type} (l : List (Nat × V)) (k k2 : Nat)
    (h : k2 ≠ k) : lookupAL (removeAL l k).2 k2 = lookupAL l k2 := by
  have hk : k ≠ k2 := Ne.symm h
  induction l with
  | nil => simp [removeAL, lookupAL]
  | cons hd tl ih =>
    obtain ⟨k3, v3⟩ := hd
    by_cases h3 : k3 = k
    · subst h3
      simp [removeAL, lookupAL, hk]
    · simp [removeAL, lookupAL, h3, ih]

/-! Embedding of `runtime/src/runtime.rs`. A task (`Pin<Box<dyn Future>>`)
is abstracted by a type `τ` together with a step function
`pollT : τ → τ × Poll`, matching the executor being generic over
`dyn Future<Output = ()>`: polling mutates the future in place and yields
`Ready` or `Pending`. Wake handles fired by other threads are modelled by
batches of ids appended to the ready queue while the scheduler thread is
parked. -/

/-- State of `Executor`: the task table (`HashMap<usize, Task>`), the shared
ready queue (`VecDeque<usize>`, front at the list head) and `next_id`. -/
structure ExecState (τ : Type) where
  tasks : List (Nat × τ)
  ready_queue : List Nat
  next_id : Nat
deriving DecidableEq

/-- `Executor::new()`. -/
def Executor.new {τ : Type} : ExecState τ :=
  { tasks := [], ready_queue := [], next_id := 0 }

/-- `Executor::schedule(future)`: insert the future at key `next_id`, push
`next_id` onto the back of the ready queue, then increment `next_id`. -/
def Executor.schedule {τ : Type} (s : ExecState τ) (t : τ) : ExecState τ :=
  { tasks := insertAL s.tasks s.next_id t
    ready_queue := s.ready_queue ++ [s.next_id]
    next_id := s.next_id + 1 }

/-- The inner `while let Some(id) = ready_queue.pop_front()` loop of
`Executor::block`, acting on the popped ids in order. For each id the entry
is removed from the task table; `remove(&id).unwrap()` panics when the id is
absent, modelled by `none`. Otherwise the future is polled; on `Ready` it is
discarded, on `Pending` the polled future is reinserted under the same id.
Returns the task table left when the queue is empty. -/
def Executor.drain {τ : Type} (pollT : τ → τ × Poll) :
    List Nat → List (Nat × τ) → Option (List (Nat × τ))
  | [], tasks => some tasks
  | id :: rest, tasks =>
    match removeAL tasks id with
    | (none, _) => none
    | (some t, tasks2) =>
      match pollT t with
      | (_, .Ready) => Executor.drain pollT rest tasks2
      | (t2, .Pending) => Executor.drain pollT rest (insertAL tasks2 id t2)

/-- Outcome of `Executor::block`: normal return, a panic inside the drain
(`unwrap` on a missing id), the thread parked with no wake ever arriving, or
exhaustion of the step budget of the model. -/
inductive BlockOutcome (τ : Type) where
  | ret : ExecState τ → BlockOutcome τ
  | crashed : BlockOutcome τ
  | parked : ExecState τ → BlockOutcome τ
  | fuelOut : BlockOutcome τ
deriving DecidableEq

/-- `Executor::block()`: loop; drain the ready queue completely; if the task
table is then empty, break (return); otherwise park the thread until some
wake handle fires. `env` lists, for each park, the batch of ids pushed by
wake handles before the thread is unparked; an empty `env` leaves the thread
parked forever. `fuel` bounds the number of loop iterations of the model. -/
def Executor.block {τ : Type} (pollT : τ → τ × Poll) :
    Nat → List (List Nat) → ExecState τ → BlockOutcome τ
  | 0, _, _ => .fuelOut
  | fuel + 1, env, s =>
    match Executor.drain pollT s.ready_queue s.tasks with
    | none => .crashed
    | some tasks2 =>
      if tasks2.isEmpty then
        .ret { tasks := tasks2, ready_queue := [], next_id := s.next_id }
      else
        match env with
        | [] => .parked { tasks := tasks2, ready_queue := [], next_id := s.next_id }
        | batch :: env2 =>
          Executor.block pollT fuel env2
            { tasks := tasks2, ready_queue := batch, next_id := s.next_id }

/-- `MyWaker`: the wake handle holds the id of its task (plus references to
the shared queue and the scheduler thread, which live in `WakeShared`). -/
structure MyWaker where
  task_id : Nat
deriving DecidableEq

/-- The state a firing wake handle can touch: the shared ready queue, the
task table (reachable only by the scheduler, carried here to state frame
conditions) and whether the scheduler thread is parked. -/
structure WakeShared (τ : Type) where
  ready_queue : List Nat
  tasks : List (Nat × τ)
  parked : Bool
deriving DecidableEq

/-- `MyWaker::wake`: push the bound task id onto the back of the shared
ready queue, then unpark the scheduler thread unconditionally. -/
def MyWaker.wake {τ : Type} (w : MyWaker) (s : WakeShared τ) : WakeShared τ :=
  { ready_queue := s.ready_queue ++ [w.task_id]
    tasks := s.tasks
    parked := false }

/-- Trivial concrete future used to instantiate the executor in closed
statements: polling always yields `Ready`. -/
def unitPoll : Unit → Unit × Poll := fun _ => ((), .Ready)

/-! Embedding of the hand-expanded coroutines. `coroutines/src/main.rs`
(`Coroutine`) and `pin/src/main.rs` (`CoroutineB`) share the same phase
type; the nested awaited future (`tokio::time::sleep` there, `AsyncTimer`
here) is abstracted by a type `ν` with a step function `pollN : ν → ν × Poll`
and fresh instances `mk1`, `mk2` created on entry to each wait phase. The
`loop { match state { ... continue ... } }` body is unrolled into one helper
per phase: each `continue` lands in a strictly later phase, so the loop runs
at most three iterations. A `panic!` is modelled by `none`. -/

/-- `CoroutineState` of both `Coroutine` and `CoroutineB`. -/
inductive CoroutineState (ν : Type) where
  | start : CoroutineState ν
  | wait1 : ν → CoroutineState ν
  | wait2 : ν → CoroutineState ν
  | resolved : CoroutineState ν
deriving DecidableEq

/-- Position of a phase in the progression `Start → Wait1 → Wait2 →
Resolved`. -/
def CoroutineState.rank {ν : Type} : CoroutineState ν → Nat
  | .start => 0
  | .wait1 _ => 1
  | .wait2 _ => 2
  | .resolved => 3

/-- The `Wait2` arm of `Coroutine::poll`: poll the nested future; on
`Pending` stay in `Wait2` and return `Pending`, on `Ready` move to
`Resolved` and return `Ready`. -/
def pollWait2 {ν : Type} (pollN : ν → ν × Poll) (f : ν) :
    Option (CoroutineState ν × Poll) :=
  match pollN f with
  | (f2, .Pending) => some (.wait2 f2, .Pending)
  | (_, .Ready) => some (.resolved, .Ready)

/-- The `Wait1` arm of `Coroutine::poll`: poll the nested future; on
`Pending` stay in `Wait1`, on `Ready` install a fresh second future (`mk2`)
and `continue` into the `Wait2` arm. -/
def pollWait1 {ν : Type} (mk2 : ν) (pollN : ν → ν × Poll) (f : ν) :
    Option (CoroutineState ν × Poll) :=
  match pollN f with
  | (f2, .Pending) => some (.wait1 f2, .Pending)
  | (_, .Ready) => pollWait2 pollN mk2

/-- `Coroutine::poll` (`coroutines/src/main.rs`): the `Start` arm installs a
fresh first future (`mk1`) and continues into `Wait1`; the `Resolved` arm is
`panic!("Future already resolved")`, modelled by `none`. -/
def Coroutine.poll {ν : Type} (mk1 mk2 : ν) (pollN : ν → ν × Poll) :
    CoroutineState ν → Option (CoroutineState ν × Poll)
  | .start => pollWait1 mk2 pollN mk1
  | .wait1 f => pollWait1 mk2 pollN f
  | .wait2 f => pollWait2 pollN f
  | .resolved => none

/-- `Stack` of `CoroutineB` (`pin/src/main.rs`): the owned buffer and the
raw `*mut String` back-reference into it. The pointer always targets
`buffer`, so it is modelled by its presence (`writer = true` iff the
`Option` is `Some`); dereferencing writes into `buffer`. -/
structure StackB where
  buffer : Option String
  writer : Bool
deriving DecidableEq

/-- `CoroutineB`: the hand-written stack plus the phase machine. -/
structure CoroutineB (ν : Type) where
  stack : StackB
  state : CoroutineState ν
deriving DecidableEq

/-- The `Wait2` arm of `CoroutineB::poll`: on nested `Ready`, take the
writer pointer (`take().unwrap()`, panic if absent), write `"World!!!"`
through it into the buffer (a write through a dangling pointer, were the
buffer gone, is likewise modelled as a fault), move to `Resolved`, free the
buffer (`buffer.take()`), and return `Ready`. -/
def pollBWait2 {ν : Type} (pollN : ν → ν × Poll) (st : StackB) (f : ν) :
    Option (CoroutineB ν × Poll) :=
  match pollN f with
  | (f2, .Pending) => some (⟨st, .wait2 f2⟩, .Pending)
  | (_, .Ready) =>
    if st.writer then
      match st.buffer with
      | some _ => some (⟨⟨none, false⟩, .resolved⟩, .Ready)
      | none => none
    else none

/-- The `Wait1` arm of `CoroutineB::poll`: on nested `Ready`, take the
writer pointer, append `"Hello "` to the buffer through it, install the
second timer (`mk2`), restore the pointer and `continue` into `Wait2`. -/
def pollBWait1 {ν : Type} (mk2 : ν) (pollN : ν → ν × Poll) (st : StackB) (f : ν) :
    Option (CoroutineB ν × Poll) :=
  match pollN f with
  | (f2, .Pending) => some (⟨st, .wait1 f2⟩, .Pending)
  | (_, .Ready) =>
    if st.writer then
      match st.buffer with
      | some b => pollBWait2 pollN ⟨some (b ++ "Hello "), true⟩ mk2
      | none => none
    else none

/-- `CoroutineB::poll`: the `Start` arm allocates the buffer, takes the
fresh self-reference, installs the first timer (`mk1`), restores the
pointer and continues into `Wait1`; the `Resolved` arm panics. -/
def CoroutineB.poll {ν : Type} (mk1 mk2 : ν) (pollN : ν → ν × Poll) :
    CoroutineB ν → Option (CoroutineB ν × Poll)
  | ⟨_, .start⟩ => pollBWait1 mk2 pollN ⟨some "", true⟩ mk1
  | ⟨st, .wait1 f⟩ => pollBWait1 mk2 pollN st f
  | ⟨st, .wait2 f⟩ => pollBWait2 pollN st f
  | ⟨_, .resolved⟩ => none

/-- Iterate a fallible poll step `n` times, threading the state and
stopping at a fault: the sequence of drive calls the scheduler performs. -/
def iterPoll {α : Type} (f : α → Option (α × Poll)) : Nat → α → Option α
  | 0, s => some s
  | n + 1, s =>
    match f s with
    | none => none
    | some (s2, _) => iterPoll f n s2

/-! Embedding of `async_timer/src/lib.rs`. The waker type is abstract (the
executor hands `AsyncTimer` an `Arc<MyWaker>`-backed `Waker`, tests could
hand anything); the spawned helper thread is reified as a `SpawnTimer`
record — the thread sleeps for `duration` and then invokes `waker.wake()`
exactly once. -/

/-- `AsyncTimer`: a duration and the `started` flag. -/
structure AsyncTimer where
  duration : Nat
  started : Bool
deriving DecidableEq

/-- `AsyncTimer::new(duration)`. -/
def AsyncTimer.new (d : Nat) : AsyncTimer := { duration := d, started := false }

/-- The thread spawned by the first poll: it sleeps `duration`, then calls
`wake()` once on the captured clone of the waker. -/
structure SpawnTimer (W : Type) where
  duration : Nat
  waker : W
deriving DecidableEq

/-- `AsyncTimer::poll`: on the first call (`!started`) set `started`, clone
the waker into a freshly spawned sleeper thread and return `Pending`; on
every later call return `Ready` immediately and spawn nothing. -/
def AsyncTimer.poll {W : Type} (t : AsyncTimer) (waker : W) :
    AsyncTimer × Poll × Option (SpawnTimer W) :=
  if !t.started then
    ({ t with started := true }, .Pending, some ⟨t.duration, waker⟩)
  else
    (t, .Ready, none)

/-! Embedding of `timer_event_queue/src/poll.rs`. The raw `ffi` calls
(`epoll_create`, `epoll_ctl`, `epoll_wait`, `close`) cross the OS boundary
and are parameterised by an oracle describing the OS outcome: the raw
return value `res`, the `errno` read by `io::Error::last_os_error()`, and,
for `epoll_wait`, the events the OS wrote into the caller's buffer. -/

namespace tq

/-- `ffi::Event`: a `u32` event bitmask and a `usize` token. -/
structure Event where
  events : Nat
  epoll_data : Nat
deriving DecidableEq

/-- A `Vec<ffi::Event>` as the Rust code uses it: a fixed capacity and the
initialised prefix (`len` visible elements). -/
structure EventBatch where
  capacity : Nat
  data : List Event
deriving DecidableEq

/-- Outcome of one fallible OS call: raw return value, the `errno` that
`last_os_error` would report, and (for `epoll_wait`) the entries written
into the supplied buffer. -/
structure OsCall where
  res : Int
  errno : Int
  written : List Event
deriving DecidableEq

/-- `Registry`: owns the raw epoll file descriptor. -/
structure Registry where
  raw_fd : Int
deriving DecidableEq

/-- `Poll`: wraps the registry. -/
structure Poll where
  registry : Registry
deriving DecidableEq

/-- `Poll::new()`: `epoll_create(1)` returned `res`; a negative `res` yields
`Err(last_os_error())`, otherwise the fd is wrapped. -/
def Poll.new (res errno : Int) : Except Int Poll :=
  if res < 0 then .error errno else .ok ⟨⟨res⟩⟩

/-- `Registry::register(source, token, interests)`: builds
`ffi::Event { events: interests, epoll_data: token }` and calls
`epoll_ctl(raw_fd, EPOLL_CTL_ADD, fd, &event)`, whose outcome is `c`; a
negative return yields `Err(last_os_error())`. -/
def Registry.register (_reg : Registry) (token : Nat) (interests : Nat)
    (c : OsCall) : Except Int Unit :=
  let _event : Event := { events := interests, epoll_data := token }
  if c.res < 0 then .error c.errno else .ok ()

/-- `Poll::poll(events, timeout)`: an absent timeout becomes `-1`
(`timeout.unwrap_or(-1)`); `epoll_wait` is called with that timeout (the
oracle `os` maps the passed timeout to the call's outcome). A negative
return yields `Err(last_os_error())` with the buffer untouched; otherwise
`set_len(res)` makes exactly the first `res` written entries visible and
`Ok(())` is returned. The returned pair is (call result, buffer after the
call). -/
def Poll.poll (os : Int → OsCall) (batch : EventBatch) (timeout : Option Int) :
    Except Int Unit × EventBatch :=
  let t : Int := timeout.getD (-1)
  let c := os t
  if c.res < 0 then
    (.error c.errno, batch)
  else
    (.ok (), { capacity := batch.capacity, data := c.written.take c.res.toNat })

/-- `Drop for Registry`: `close(raw_fd)` returned `res`; a negative return
is logged via `eprintln!` and swallowed. The function returns the list of
errnos logged — its type shows that no error and no panic can escape. -/
def Registry.dropRun (_reg : Registry) (res errno : Int) : List Int :=
  if res < 0 then [errno] else []

end tq

/-! Theorems. -/

/-- C1: the spec demands that a drained id absent from the task table be
skipped as a no-op, the drain continuing unharmed. The code instead runs
`self.tasks.remove(&id).unwrap()` (`runtime/src/runtime.rs:50`), which
panics on a missing id. Evaluated at the failing input — a stale queue
entry `0` whose task has already completed and been removed — the drain
crashes; with another live task `1` queued right behind the stale id, the
whole `block` call still crashes and task `1` is never driven, instead of
the drain skipping `0` and continuing. -/
theorem drain_panics_on_missing_id :
    Executor.drain unitPoll [0] [] = none ∧
    Executor.drain unitPoll [0, 1] [(1, ())] = none ∧
    Executor.block unitPoll 1 []
      { tasks := [(1, ())], ready_queue := [0, 1], next_id := 2 } = .crashed := by
  refine ⟨rfl, rfl, ?_⟩
  decide

/-- C4: driving a computation whose state is already `Resolved` is fatal:
both `Coroutine::poll` (`coroutines/src/main.rs:61`) and `CoroutineB::poll`
(`pin/src/main.rs:96`) hit `panic!("Future already resolved")` — modelled
by `none` — for every such computation, never a result or a recoverable
error. -/
theorem poll_after_resolved_fatal {ν : Type} (mk1 mk2 : ν)
    (pollN : ν → ν × Poll) (st : StackB) :
    Coroutine.poll mk1 mk2 pollN .resolved = none ∧
    CoroutineB.poll mk1 mk2 pollN ⟨st, .resolved⟩ = none :=
  ⟨rfl, rfl⟩

/-- C7: `MyWaker::wake` appends the bound task id to the back of the shared
ready queue, then unparks the scheduler thread unconditionally (the parked
flag becomes `false` whatever it was); the task table is untouched, and the
operation is a total function — it cannot fail. -/
theorem wake_appends_and_unparks {τ : Type} (w : MyWaker) (s : WakeShared τ) :
    (w.wake s).ready_queue = s.ready_queue ++ [w.task_id] ∧
    (w.wake s).tasks = s.tasks ∧
    (w.wake s).parked = false :=
  ⟨rfl, rfl, rfl⟩

/-- C10: the first poll of an `AsyncTimer` — whatever the duration, zero
included — returns `Pending`, marks the timer started and hands the waker
of that first call to the one spawned sleeper thread (which invokes it at
most once); every subsequent poll returns `Ready` immediately and spawns
nothing, so wakers passed to later polls are never invoked. -/
theorem asyncTimer_poll_protocol (W : Type) (d : Nat) (w w2 : W) :
    AsyncTimer.poll (AsyncTimer.new d) w =
      ({ duration := d, started := true }, .Pending, some ⟨d, w⟩) ∧
    AsyncTimer.poll { duration := d, started := true } w2 =
      ({ duration := d, started := true }, .Ready, none) :=
  ⟨rfl, rfl⟩

theorem block_ret_tasks_empty {τ : Type} (pollT : τ → τ × Poll) :
    ∀ fuel env s s2, Executor.block pollT fuel env s = .ret s2 → s2.tasks = [] := by
  intro fuel
  induction fuel with
  | zero =>
    intro env s s2 h
    simp [Executor.block] at h
  | succ n ih =>
    intro env s s2 h
    rw [Executor.block] at h
    cases hd : Executor.drain pollT s.ready_queue s.tasks with
    | none => rw [hd] at h; simp at h
    | some tasks2 =>
      rw [hd] at h
      by_cases he : tasks2.isEmpty
      · simp only [he, if_true] at h
        cases h
        exact List.isEmpty_iff.mp he
      · simp only [he, if_false, Bool.false_eq_true] at h
        cases env with
        | nil => simp at h
        | cons batch env2 => exact ih env2 _ s2 h

/-- C2: `Executor::block` never returns while the task table is non-empty.
First conjunct: whenever the model of `block` returns (any fuel, any
sequence of wake batches, any start state), the task table at the return is
empty. Second conjunct: with nothing ever scheduled (empty table and queue)
it returns immediately. Third conjunct: if draining the queue leaves a
non-empty table, the thread parks (here: with no wake ever firing, `block`
ends parked) instead of returning. -/
theorem block_returns_iff_table_empty {τ : Type} (pollT : τ → τ × Poll) :
    (∀ fuel env s s2, Executor.block pollT fuel env s = .ret s2 → s2.tasks = []) ∧
    (∀ fuel env n, Executor.block pollT (fuel + 1) env
      ({ tasks := [], ready_queue := [], next_id := n } : ExecState τ) =
      .ret { tasks := [], ready_queue := [], next_id := n }) ∧
    (∀ fuel s tasks2, Executor.drain pollT s.ready_queue s.tasks = some tasks2 →
      tasks2 ≠ [] → Executor.block pollT (fuel + 1) [] s =
        .parked { tasks := tasks2, ready_queue := [], next_id := s.next_id }) := by
  refine ⟨block_ret_tasks_empty pollT, ?_, ?_⟩
  · intro fuel env n
    rw [Executor.block]
    simp [Executor.drain]
  · intro fuel s tasks2 hd hne
    rw [Executor.block, hd]
    have he : tasks2.isEmpty = false := by
      cases tasks2 with
      | nil => exact absurd rfl hne
      | cons hd2 tl2 => rfl
    simp [he]

/-- Witness for C2: the three conjuncts applied at concrete inputs — an
empty executor returns at once with an empty table, and a one-task executor
whose queue is already drained parks rather than returns. -/
theorem block_returns_iff_table_empty_witness :
    Executor.block unitPoll 1 []
      ({ tasks := [], ready_queue := [], next_id := 0 } : ExecState Unit) =
      .ret { tasks := [], ready_queue := [], next_id := 0 } ∧
    ({ tasks := [], ready_queue := [], next_id := 0 } : ExecState Unit).tasks = [] ∧
    Executor.drain unitPoll [] [(0, ())] = some [(0, ())] ∧
    ([(0, ())] : List (Nat × Unit)) ≠ [] ∧
    Executor.block unitPoll 1 []
      ({ tasks := [(0, ())], ready_queue := [], next_id := 1 } : ExecState Unit) =
      .parked { tasks := [(0, ())], ready_queue := [], next_id := 1 } := by
  refine ⟨(block_returns_iff_table_empty unitPoll).2.1 0 [] 0, ?_, by decide, by decide, ?_⟩
  · exact (block_returns_iff_table_empty unitPoll).1 1 [] _ _
      ((block_returns_iff_table_empty unitPoll).2.1 0 [] 0)
  · exact (block_returns_iff_table_empty unitPoll).2.2 0
      { tasks := [(0, ())], ready_queue := [], next_id := 1 } [(0, ())]
      (by decide) (by decide)

theorem pollWait2_rank {ν : Type} (pollN : ν → ν × Poll) (f : ν)
    (s2 : CoroutineState ν) (r : Poll) (h : pollWait2 pollN f = some (s2, r)) :
    2 ≤ s2.rank := by
  rcases hp : pollN f with ⟨f2, p⟩
  cases p <;> simp [pollWait2, hp] at h <;>
    simp [← h.1, CoroutineState.rank]

theorem pollWait1_rank {ν : Type} (mk2 : ν) (pollN : ν → ν × Poll) (f : ν)
    (s2 : CoroutineState ν) (r : Poll) (h : pollWait1 mk2 pollN f = some (s2, r)) :
    1 ≤ s2.rank := by
  rcases hp : pollN f with ⟨f2, p⟩
  cases p
  · rw [pollWait1, hp] at h
    exact le_trans (by omega) (pollWait2_rank pollN mk2 s2 r h)
  · simp [pollWait1, hp] at h
    simp [← h.1, CoroutineState.rank]

theorem coroutine_poll_rank_step {ν : Type} (mk1 mk2 : ν) (pollN : ν → ν × Poll)
    (s s2 : CoroutineState ν) (r : Poll)
    (h : Coroutine.poll mk1 mk2 pollN s = some (s2, r)) : s.rank ≤ s2.rank := by
  cases s with
  | start => exact le_trans (Nat.zero_le _) (pollWait1_rank mk2 pollN mk1 s2 r h)
  | wait1 f => exact pollWait1_rank mk2 pollN f s2 r h
  | wait2 f => exact pollWait2_rank pollN f s2 r h
  | resolved => simp [Coroutine.poll] at h

theorem pollBWait2_rank {ν : Type} (pollN : ν → ν × Poll) (st : StackB) (f : ν)
    (b2 : CoroutineB ν) (r : Poll) (h : pollBWait2 pollN st f = some (b2, r)) :
    2 ≤ b2.state.rank := by
  rcases hp : pollN f with ⟨f2, p⟩
  cases p
  · rw [pollBWait2, hp] at h
    by_cases hw : st.writer
    · cases hb : st.buffer with
      | none => simp [hw, hb] at h
      | some b =>
        simp [hw, hb] at h
        simp [← h.1, CoroutineState.rank]
    · simp [hw] at h
  · simp [pollBWait2, hp] at h
    simp [← h.1, CoroutineState.rank]

theorem pollBWait1_rank {ν : Type} (mk2 : ν) (pollN : ν → ν × Poll) (st : StackB)
    (f : ν) (b2 : CoroutineB ν) (r : Poll) (h : pollBWait1 mk2 pollN st f = some (b2, r)) :
    1 ≤ b2.state.rank := by
  rcases hp : pollN f with ⟨f2, p⟩
  cases p
  · rw [pollBWait1, hp] at h
    by_cases hw : st.writer
    · cases hb : st.buffer with
      | none => simp [hw, hb] at h
      | some b =>
        simp only [hw, hb, if_true] at h
        exact le_trans (by omega) (pollBWait2_rank pollN _ mk2 b2 r h)
    · simp [hw] at h
  · simp [pollBWait1, hp] at h
    simp [← h.1, CoroutineState.rank]

theorem coroutineB_poll_rank_step {ν : Type} (mk1 mk2 : ν) (pollN : ν → ν × Poll)
    (b b2 : CoroutineB ν) (r : Poll)
    (h : CoroutineB.poll mk1 mk2 pollN b = some (b2, r)) :
    b.state.rank ≤ b2.state.rank := by
  obtain ⟨st, state⟩ := b
  cases state with
  | start => exact le_trans (Nat.zero_le _) (pollBWait1_rank mk2 pollN _ mk1 b2 r h)
  | wait1 f => exact pollBWait1_rank mk2 pollN st f b2 r h
  | wait2 f => exact pollBWait2_rank pollN st f b2 r h
  | resolved => simp [CoroutineB.poll] at h

theorem iterPoll_rank_mono {ν : Type} (mk1 mk2 : ν) (pollN : ν → ν × Poll) :
    ∀ n (s s2 : CoroutineState ν),
      iterPoll (Coroutine.poll mk1 mk2 pollN) n s = some s2 → s.rank ≤ s2.rank := by
  intro n
  induction n with
  | zero =>
    intro s s2 h
    simp [iterPoll] at h
    simp [h]
  | succ m ih =>
    intro s s2 h
    rw [iterPoll] at h
    cases hstep : Coroutine.poll mk1 mk2 pollN s with
    | none => rw [hstep] at h; simp at h
    | some p =>
      rw [hstep] at h
      exact le_trans (coroutine_poll_rank_step mk1 mk2 pollN s p.1 p.2 hstep) (ih p.1 s2 h)

theorem iterPollB_rank_mono {ν : Type} (mk1 mk2 : ν) (pollN : ν → ν × Poll) :
    ∀ n (b b2 : CoroutineB ν),
      iterPoll (CoroutineB.poll mk1 mk2 pollN) n b = some b2 →
        b.state.rank ≤ b2.state.rank := by
  intro n
  induction n with
  | zero =>
    intro b b2 h
    simp [iterPoll] at h
    simp [h]
  | succ m ih =>
    intro b b2 h
    rw [iterPoll] at h
    cases hstep : CoroutineB.poll mk1 mk2 pollN b with
    | none => rw [hstep] at h; simp at h
    | some p =>
      rw [hstep] at h
      exact le_trans (coroutineB_poll_rank_step mk1 mk2 pollN b p.1 p.2 hstep) (ih p.1 b2 h)

theorem coroutine_wait1_gate {ν : Type} (mk1 mk2 : ν) (pollN : ν → ν × Poll)
    (f : ν) (s2 : CoroutineState ν) (r : Poll)
    (h : Coroutine.poll mk1 mk2 pollN (.wait1 f) = some (s2, r))
    (hr : 2 ≤ s2.rank) : (pollN f).2 = .Ready := by
  rcases hp : pollN f with ⟨f2, p⟩
  cases p
  · simp
  · simp [Coroutine.poll, pollWait1, hp] at h
    rw [← h.1] at hr
    simp [CoroutineState.rank] at hr

theorem coroutine_wait2_gate {ν : Type} (mk1 mk2 : ν) (pollN : ν → ν × Poll)
    (f : ν) (s2 : CoroutineState ν) (r : Poll)
    (h : Coroutine.poll mk1 mk2 pollN (.wait2 f) = some (s2, r))
    (hs : s2 = .resolved) : (pollN f).2 = .Ready := by
  rcases hp : pollN f with ⟨f2, p⟩
  cases p
  · simp
  · simp [Coroutine.poll, pollWait2, hp] at h
    rw [hs] at h
    simp at h

theorem coroutineB_wait1_gate {ν : Type} (mk1 mk2 : ν) (pollN : ν → ν × Poll)
    (st : StackB) (f : ν) (b2 : CoroutineB ν) (r : Poll)
    (h : CoroutineB.poll mk1 mk2 pollN ⟨st, .wait1 f⟩ = some (b2, r))
    (hr : 2 ≤ b2.state.rank) : (pollN f).2 = .Ready := by
  rcases hp : pollN f with ⟨f2, p⟩
  cases p
  · simp
  · simp [CoroutineB.poll, pollBWait1, hp] at h
    rw [← h.1] at hr
    simp [CoroutineState.rank] at hr

theorem coroutineB_wait2_gate {ν : Type} (mk1 mk2 : ν) (pollN : ν → ν × Poll)
    (st : StackB) (f : ν) (b2 : CoroutineB ν) (r : Poll)
    (h : CoroutineB.poll mk1 mk2 pollN ⟨st, .wait2 f⟩ = some (b2, r))
    (hs : b2.state = .resolved) : (pollN f).2 = .Ready := by
  rcases hp : pollN f with ⟨f2, p⟩
  cases p
  · simp
  · simp [CoroutineB.poll, pollBWait2, hp] at h
    rw [← h.1] at hs
    simp at hs

/-- C3: a poll (drive) call on the hand-expanded coroutines never regresses
the phase. For each single step and for every iterated sequence of steps of
both `Coroutine::poll` and `CoroutineB::poll`, the resulting phase's rank
(`Start = 0 ≤ Wait1 = 1 ≤ Wait2 = 2 ≤ Resolved = 3`) is at least the
starting phase's; and the phase after `Wait1` (rank `≥ 2`) respectively
after `Wait2` (`Resolved`) is entered only when the nested computation
embedded in that phase polled `Ready`. -/
theorem coroutine_phase_monotone {ν : Type} (mk1 mk2 : ν) (pollN : ν → ν × Poll) :
    (∀ (s s2 : CoroutineState ν) r,
      Coroutine.poll mk1 mk2 pollN s = some (s2, r) → s.rank ≤ s2.rank) ∧
    (∀ (b b2 : CoroutineB ν) r,
      CoroutineB.poll mk1 mk2 pollN b = some (b2, r) → b.state.rank ≤ b2.state.rank) ∧
    (∀ n (s s2 : CoroutineState ν),
      iterPoll (Coroutine.poll mk1 mk2 pollN) n s = some s2 → s.rank ≤ s2.rank) ∧
    (∀ n (b b2 : CoroutineB ν),
      iterPoll (CoroutineB.poll mk1 mk2 pollN) n b = some b2 →
        b.state.rank ≤ b2.state.rank) ∧
    (∀ f (s2 : CoroutineState ν) r,
      Coroutine.poll mk1 mk2 pollN (.wait1 f) = some (s2, r) → 2 ≤ s2.rank →
        (pollN f).2 = .Ready) ∧
    (∀ f (s2 : CoroutineState ν) r,
      Coroutine.poll mk1 mk2 pollN (.wait2 f) = some (s2, r) → s2 = .resolved →
        (pollN f).2 = .Ready) ∧
    (∀ st f (b2 : CoroutineB ν) r,
      CoroutineB.poll mk1 mk2 pollN ⟨st, .wait1 f⟩ = some (b2, r) → 2 ≤ b2.state.rank →
        (pollN f).2 = .Ready) ∧
    (∀ st f (b2 : CoroutineB ν) r,
      CoroutineB.poll mk1 mk2 pollN ⟨st, .wait2 f⟩ = some (b2, r) → b2.state = .resolved →
        (pollN f).2 = .Ready) :=
  ⟨fun s s2 r => coroutine_poll_rank_step mk1 mk2 pollN s s2 r,
   fun b b2 r => coroutineB_poll_rank_step mk1 mk2 pollN b b2 r,
   fun n s s2 => iterPoll_rank_mono mk1 mk2 pollN n s s2,
   fun n b b2 => iterPollB_rank_mono mk1 mk2 pollN n b b2,
   fun f s2 r => coroutine_wait1_gate mk1 mk2 pollN f s2 r,
   fun f s2 r => coroutine_wait2_gate mk1 mk2 pollN f s2 r,
   fun st f b2 r => coroutineB_wait1_gate mk1 mk2 pollN st f b2 r,
   fun st f b2 r => coroutineB_wait2_gate mk1 mk2 pollN st f b2 r⟩

/-- Nested computation used in closed statements: polling always yields
`Pending`. -/
def pendN : Unit → Unit × Poll := fun _ => ((), .Pending)

/-- Nested computation used in closed statements: polling always yields
`Ready`. -/
def readyN : Unit → Unit × Poll := fun _ => ((), .Ready)

/-- Witness for C3: every conjunct applied at concrete machines — a
`Pending` nested future leaves the phase at `Wait1`, a `Ready` one advances
`Wait1` and `Wait2` to `Resolved`, in both coroutines. -/
theorem coroutine_phase_monotone_witness :
    Coroutine.poll () () pendN .start = some (.wait1 (), .Pending) ∧
    (CoroutineState.start : CoroutineState Unit).rank ≤ (CoroutineState.wait1 ()).rank ∧
    CoroutineB.poll () () pendN ⟨⟨none, false⟩, .start⟩ =
      some (⟨⟨some "", true⟩, .wait1 ()⟩, .Pending) ∧
    ((⟨⟨none, false⟩, .start⟩ : CoroutineB Unit)).state.rank ≤
      ((⟨⟨some "", true⟩, .wait1 ()⟩ : CoroutineB Unit)).state.rank ∧
    iterPoll (Coroutine.poll () () pendN) 2 .start = some (.wait1 ()) ∧
    iterPoll (CoroutineB.poll () () pendN) 1 ⟨⟨none, false⟩, .start⟩ =
      some ⟨⟨some "", true⟩, .wait1 ()⟩ ∧
    Coroutine.poll () () readyN (.wait1 ()) = some (.resolved, .Ready) ∧
    (2 ≤ (CoroutineState.resolved : CoroutineState Unit).rank) ∧
    (readyN ()).2 = .Ready ∧
    Coroutine.poll () () readyN (.wait2 ()) = some (.resolved, .Ready) ∧
    CoroutineB.poll () () readyN ⟨⟨some "", true⟩, .wait1 ()⟩ =
      some (⟨⟨none, false⟩, .resolved⟩, .Ready) ∧
    CoroutineB.poll () () readyN ⟨⟨some "", true⟩, .wait2 ()⟩ =
      some (⟨⟨none, false⟩, .resolved⟩, .Ready) := by
  have h1 : Coroutine.poll () () pendN .start = some (.wait1 (), .Pending) := by decide
  have h2 : CoroutineB.poll () () pendN ⟨⟨none, false⟩, .start⟩ =
      some (⟨⟨some "", true⟩, .wait1 ()⟩, .Pending) := by decide
  have h3 : iterPoll (Coroutine.poll () () pendN) 2 .start =
      some (.wait1 ()) := by decide
  have h4 : iterPoll (CoroutineB.poll () () pendN) 1 ⟨⟨none, false⟩, .start⟩ =
      some ⟨⟨some "", true⟩, .wait1 ()⟩ := by decide
  have h5 : Coroutine.poll () () readyN (.wait1 ()) = some (.resolved, .Ready) := by decide
  have h6 : Coroutine.poll () () readyN (.wait2 ()) = some (.resolved, .Ready) := by decide
  have h7 : CoroutineB.poll () () readyN ⟨⟨some "", true⟩, .wait1 ()⟩ =
      some (⟨⟨none, false⟩, .resolved⟩, .Ready) := by decide
  have h8 : CoroutineB.poll () () readyN ⟨⟨some "", true⟩, .wait2 ()⟩ =
      some (⟨⟨none, false⟩, .resolved⟩, .Ready) := by decide
  refine ⟨h1, (coroutine_phase_monotone () () pendN).1 _ _ _ h1, h2,
    (coroutine_phase_monotone () () pendN).2.1 _ _ _ h2, h3, h4, h5, by decide,
    (coroutine_phase_monotone () () readyN).2.2.2.2.1 () .resolved .Ready h5 (by decide),
    h6, h7, h8⟩

/-- C5: one iteration of the drain on an id that is present in the table:
the entry leaves the table for the drive call, and the drain continues on a
table `D` in which the driven id is gone when the poll returned `Ready` and
rebound to the polled (advanced) future when it returned `Pending`; every
other id's entry in `D` is exactly what it was before. -/
theorem drive_frame_effect {τ : Type} (pollT : τ → τ × Poll)
    (tasks : List (Nat × τ)) (id : Nat) (t : τ) (rest : List Nat)
    (hnd : (tasks.map Prod.fst).Nodup) (hl : lookupAL tasks id = some t) :
    ∃ D, Executor.drain pollT (id :: rest) tasks = Executor.drain pollT rest D ∧
      ((pollT t).2 = .Ready → lookupAL D id = none) ∧
      ((pollT t).2 = .Pending → lookupAL D id = some (pollT t).1) ∧
      (∀ k, k ≠ id → lookupAL D k = lookupAL tasks k) := by
  have hr1 : (removeAL tasks id).1 = some t := by rw [removeAL_fst]; exact hl
  rcases hrm : removeAL tasks id with ⟨ov, tasks2⟩
  have hov : ov = some t := by rw [hrm] at hr1; exact hr1
  subst hov
  have htasks2 : (removeAL tasks id).2 = tasks2 := by rw [hrm]
  rcases hp : pollT t with ⟨t2, p⟩
  cases p
  · refine ⟨tasks2, ?_, ?_, ?_, ?_⟩
    · simp [Executor.drain, hrm, hp]
    · intro _
      rw [← htasks2]
      exact lookupAL_removeAL_self tasks id hnd
    · intro habs
      simp at habs
    · intro k hk
      rw [← htasks2]
      exact lookupAL_removeAL_ne tasks id k hk
  · refine ⟨insertAL tasks2 id t2, ?_, ?_, ?_, ?_⟩
    · simp [Executor.drain, hrm, hp]
    · intro habs
      simp at habs
    · intro _
      exact lookupAL_insertAL_self tasks2 id t2
    · intro k hk
      rw [lookupAL_insertAL_ne tasks2 id k t2 hk, ← htasks2]
      exact lookupAL_removeAL_ne tasks id k hk

/-- Witness for C5: the frame effect evaluated on a two-task table, driving
id `0` (whose `unitPoll` returns `Ready`) with task `1` untouched. -/
theorem drive_frame_effect_witness :
    (([(0, ()), (1, ())] : List (Nat × Unit)).map Prod.fst).Nodup ∧
    lookupAL [(0, ()), (1, ())] 0 = some () ∧
    ∃ D, Executor.drain unitPoll [0] [(0, ()), (1, ())] = Executor.drain unitPoll [] D ∧
      ((unitPoll ()).2 = .Ready → lookupAL D 0 = none) ∧
      ((unitPoll ()).2 = .Pending → lookupAL D 0 = some (unitPoll ()).1) ∧
      (∀ k, k ≠ 0 → lookupAL D k = lookupAL [(0, ()), (1, ())] k) :=
  ⟨by decide, by decide,
    drive_frame_effect unitPoll [(0, ()), (1, ())] 0 () [] (by decide) (by decide)⟩

/-- Invariant of the executor: every id present in the task table or the
ready queue is below `next_id` (so below every id yet to be assigned). It
holds of `Executor::new` and is preserved by `schedule`. -/
def ExecInv {τ : Type} (s : ExecState τ) : Prop :=
  (∀ k, (lookupAL s.tasks k).isSome → k < s.next_id) ∧
  (∀ i, i ∈ s.ready_queue → i < s.next_id)

/-- C6: `Executor::schedule` assigns the id `next_id` — strictly above
every id in the table or queue, hence above every previously assigned id —
increments `next_id` by one, inserts the task at a key not previously bound
(no entry is overwritten, and all other entries are unchanged), and appends
the new id to the back of the ready queue; the invariant is preserved and
holds initially. -/
theorem schedule_fresh_id {τ : Type} (s : ExecState τ) (t : τ) (hinv : ExecInv s) :
    (Executor.schedule s t).next_id = s.next_id + 1 ∧
    lookupAL s.tasks s.next_id = none ∧
    lookupAL (Executor.schedule s t).tasks s.next_id = some t ∧
    (∀ k, k ≠ s.next_id →
      lookupAL (Executor.schedule s t).tasks k = lookupAL s.tasks k) ∧
    (Executor.schedule s t).ready_queue = s.ready_queue ++ [s.next_id] ∧
    (∀ k, (lookupAL s.tasks k).isSome → k < s.next_id) ∧
    (∀ i, i ∈ s.ready_queue → i < s.next_id) ∧
    ExecInv (Executor.schedule s t) ∧
    ExecInv (Executor.new : ExecState τ) := by
  refine ⟨rfl, ?_, lookupAL_insertAL_self s.tasks s.next_id t, ?_, rfl,
    hinv.1, hinv.2, ⟨?_, ?_⟩, ⟨?_, ?_⟩⟩
  · cases hcase : lookupAL s.tasks s.next_id with
    | none => rfl
    | some v =>
      have := hinv.1 s.next_id (by rw [hcase]; rfl)
      omega
  · intro k hk
    exact lookupAL_insertAL_ne s.tasks s.next_id k t hk
  · intro k hk
    by_cases hke : k = s.next_id
    · simp [Executor.schedule, hke]
    · rw [show (Executor.schedule s t).tasks = insertAL s.tasks s.next_id t from rfl,
        lookupAL_insertAL_ne s.tasks s.next_id k t hke] at hk
      have := hinv.1 k hk
      simp [Executor.schedule]
      omega
  · intro i hi
    rw [show (Executor.schedule s t).ready_queue = s.ready_queue ++ [s.next_id]
      from rfl] at hi
    rcases List.mem_append.mp hi with hmem | hmem
    · have := hinv.2 i hmem
      simp [Executor.schedule]
      omega
    · simp at hmem
      simp [Executor.schedule, hmem]
  · intro k hk
    simp [Executor.new, lookupAL] at hk
  · intro i hi
    simp [Executor.new] at hi

/-- Witness for C6: scheduling a first task on a fresh executor assigns id
`0`, bumps `next_id` to `1` and enqueues `0`. -/
theorem schedule_fresh_id_witness :
    ExecInv (Executor.new : ExecState Unit) ∧
    (Executor.schedule (Executor.new : ExecState Unit) ()).next_id = 0 + 1 ∧
    lookupAL (Executor.new : ExecState Unit).tasks 0 = none ∧
    lookupAL (Executor.schedule (Executor.new : ExecState Unit) ()).tasks 0 = some () ∧
    (Executor.schedule (Executor.new : ExecState Unit) ()).ready_queue = [] ++ [0] := by
  have hinv : ExecInv (Executor.new : ExecState Unit) :=
    ⟨fun k hk => by simp [Executor.new, lookupAL] at hk,
     fun i hi => by simp [Executor.new] at hi⟩
  have h := schedule_fresh_id (Executor.new : ExecState Unit) () hinv
  exact ⟨hinv, h.1, h.2.1, h.2.2.1, h.2.2.2.2.1⟩

/-- C8: `Poll::poll` passes an absent timeout to the OS as `-1`; when the
OS call `c` succeeds (`res ≥ 0`) the buffer is truncated to exactly the
first `res` entries the OS wrote (so nothing beyond that count is ever
visible) and `Ok` is returned; exactly when the OS returns a negative value
the call returns the OS error and the buffer's length is left untouched. -/
theorem reactor_poll_spec (os : Int → tq.OsCall) (batch : tq.EventBatch)
    (timeout : Option Int) (c : tq.OsCall) (hc : os (timeout.getD (-1)) = c) :
    (timeout = none → timeout.getD (-1) = -1) ∧
    (0 ≤ c.res → tq.Poll.poll os batch timeout =
      (.ok (), { capacity := batch.capacity, data := c.written.take c.res.toNat }) ∧
      (c.res.toNat ≤ c.written.length →
        (tq.Poll.poll os batch timeout).2.data.length = c.res.toNat)) ∧
    (c.res < 0 ↔ tq.Poll.poll os batch timeout = (.error c.errno, batch)) := by
  refine ⟨?_, ?_, ?_, ?_⟩
  · intro h
    rw [h]
    rfl
  · intro h0
    have hlt : ¬c.res < 0 := not_lt.mpr h0
    constructor
    · simp [tq.Poll.poll, hc, hlt]
    · intro hlen
      simp [tq.Poll.poll, hc, hlt, List.length_take]
      omega
  · intro h
    simp [tq.Poll.poll, hc, h]
  · intro heq
    by_contra h
    push_neg at h
    simp [tq.Poll.poll, hc, not_lt.mpr h] at heq

/-- Oracle for the C8 witness: the OS reports one ready event out of two
written entries, with errno 7 were it consulted. -/
def osW : Int → tq.OsCall :=
  fun _ => { res := 1, errno := 7, written := [⟨1, 10⟩, ⟨2, 11⟩] }

/-- Witness for C8: polling with no timeout and an empty 8-capacity buffer
under `osW` succeeds and leaves exactly one visible entry. -/
theorem reactor_poll_spec_witness :
    osW ((none : Option Int).getD (-1)) =
      { res := 1, errno := 7, written := [⟨1, 10⟩, ⟨2, 11⟩] } ∧
    ((none : Option Int) = none → (none : Option Int).getD (-1) = -1) ∧
    (0 : Int) ≤ 1 ∧ (1 : Int).toNat ≤ 2 ∧
    tq.Poll.poll osW ⟨8, []⟩ none = (.ok (), { capacity := 8, data := [⟨1, 10⟩] }) ∧
    (tq.Poll.poll osW ⟨8, []⟩ none).2.data.length = (1 : Int).toNat := by
  have h := reactor_poll_spec osW ⟨8, []⟩ none
    { res := 1, errno := 7, written := [⟨1, 10⟩, ⟨2, 11⟩] } rfl
  refine ⟨rfl, h.1, by norm_num, by norm_num, ?_, ?_⟩
  · have h2 := (h.2.1 (by norm_num)).1
    simpa using h2
  · exact (h.2.1 (by norm_num)).2 (by norm_num)

/-- C9: each fallible OS call of the reactor surfaces a recoverable error
carrying the OS error code exactly when the OS returned a negative value:
`Poll::new` (`epoll_create`), `Registry::register` (`epoll_ctl`) and
`Poll::poll` (`epoll_wait`). The exception is teardown: `Drop for Registry`
logs a failed `close` and swallows it — its embedding returns only the log,
so nothing propagates and nothing panics. -/
theorem reactor_os_error_propagation (res errno : Int) (reg : tq.Registry)
    (token interests : Nat) (c : tq.OsCall) (os : Int → tq.OsCall)
    (batch : tq.EventBatch) (timeout : Option Int) :
    (res < 0 ↔ tq.Poll.new res errno = .error errno) ∧
    (0 ≤ res ↔ tq.Poll.new res errno = .ok ⟨⟨res⟩⟩) ∧
    (c.res < 0 ↔ reg.register token interests c = .error c.errno) ∧
    (0 ≤ c.res ↔ reg.register token interests c = .ok ()) ∧
    ((os (timeout.getD (-1))).res < 0 ↔
      (tq.Poll.poll os batch timeout).1 = .error (os (timeout.getD (-1))).errno) ∧
    (res < 0 ↔ reg.dropRun res errno = [errno]) ∧
    (0 ≤ res ↔ reg.dropRun res errno = []) := by
  refine ⟨?_, ?_, ?_, ?_, ?_, ?_, ?_⟩
  · by_cases h : res < 0 <;> simp [tq.Poll.new, h]
  · by_cases h : res < 0
    · simp [tq.Poll.new, h, not_le.mpr h]
    · simp [tq.Poll.new, h, not_lt.mp h]
  · by_cases h : c.res < 0 <;> simp [tq.Registry.register, h]
  · by_cases h : c.res < 0
    · simp [tq.Registry.register, h, not_le.mpr h]
    · simp [tq.Registry.register, h, not_lt.mp h]
  · by_cases h : (os (timeout.getD (-1))).res < 0 <;> simp [tq.Poll.poll, h]
  · by_cases h : res < 0 <;> simp [tq.Registry.dropRun, h]
  · by_cases h : res < 0
    · simp [tq.Registry.dropRun, h, not_le.mpr h]
    · simp [tq.Registry.dropRun, h, not_lt.mp h]

end AsyncRust
